import Mathlib

/-!
Verification development for the `mdspec` package of KEINOS/go-md-spec-check.

The Go sources under `mdspec/mdspec.go` are shallowly embedded below:

* `TestCase`, `runSingleTest`, `runSequential` model the test-case runner and
  the sequential loop of `SpecCheckWithConcurrency` (`maxConcurrency = -1`).
* `FixtureStore`, `loadFile`, `specCheckSetup` model the embedded-filesystem
  access and the validation/loading stage of `SpecCheckWithConcurrency`
  (the raw file contents and the injectable `jsonUnmarshal` decoder are
  parameters, mirroring the package-level `jsonUnmarshal` variable and the
  `embed.FS` value of the source).
* `semverParseOK` embeds `golang.org/x/mod/semver.IsValid` (function `parse`
  with its helpers `parseInt`, `parsePrerelease`, `parseBuild`), the library
  the source's `isValidFormatVer` delegates to.
* `SchedStep` / `SchedTrace` model the `errgroup` scheduler used by
  `runTestsConcurrently`: `SetLimit` bounds the number of in-flight
  goroutines, `Go` dispatches test cases in fixture order (blocking while the
  limit is reached), and `Wait` joins everything and returns the first error
  in completion order.  The dispatch loop of the source never consults the
  context returned by `errgroup.WithContext` (the `ctx` variable is unused),
  so dispatch is unconditional: a failure never stops later dispatches.

Go errors are modelled as their message strings (`Option String` /
`Except String`), with `github.com/pkg/errors` wrapping rendered as
`msg ++ ": " ++ cause`, which is how those errors print.
-/

/-! ## Data model: one CommonMark conformance fixture (source: `TestCase`) -/

structure TestCase where
  Markdown : String
  HTML : String
  Section : String
  StartLine : Int
  EndLine : Int
  ExampleNum : Int
deriving Repr, DecidableEq

/-- A user-supplied Markdown conversion function, Go type
`func(string) (string, error)`: the result string together with an optional
error message (`none` models a `nil` error). -/
def MdFunc : Type := String → String × Option String

/-! ## Rendering of Go diagnostics

`goQuote` models the `%#v` formatting verb applied to a Go string: the
strconv-style double-quoted form with backslash escapes.  The claims below
depend only on the shape of the surrounding messages, never on the details of
the quoting. -/

def hexDigit (n : Nat) : Char :=
  if n < 10 then Char.ofNat (48 + n) else Char.ofNat (87 + n)

def goEscapeChar (c : Char) : String :=
  if c = '\\' then "\\\\"
  else if c = '"' then "\\\""
  else if c = '\n' then "\\n"
  else if c = '\t' then "\\t"
  else if c = '\r' then "\\r"
  else if c = Char.ofNat 7 then "\\a"
  else if c = Char.ofNat 8 then "\\b"
  else if c = Char.ofNat 12 then "\\f"
  else if c = Char.ofNat 11 then "\\v"
  else if c.toNat < 32 ∨ c.toNat = 127 then
    "\\x" ++ String.mk [hexDigit (c.toNat / 16), hexDigit (c.toNat % 16)]
  else String.singleton c

def goQuote (s : String) : String :=
  "\"" ++ String.join (s.data.map goEscapeChar) ++ "\""

/-! ## Test case runner (source: `runSingleTest`, mdspec.go lines 197-219)

Returns `none` on a pass and `some message` on a failure, where `message` is
the text of the returned Go error. -/

def runSingleTest (testCase : TestCase) (yourFunc : MdFunc) : Option String :=
  let nameTest := toString testCase.ExampleNum ++ "_" ++ testCase.Section
  let expect := testCase.HTML
  let res := yourFunc testCase.Markdown
  let actual := res.1
  match res.2 with
  | some e =>
      some ("error " ++ nameTest ++ ": the given function failed to parse markdown.\n"
        ++ "given markdown: " ++ goQuote testCase.Markdown
        ++ "\nexpect HTML: " ++ goQuote expect
        ++ "\nactual HTML: " ++ goQuote actual
        ++ ": " ++ e)
  | none =>
      if expect ≠ actual then
        some ("error " ++ nameTest
          ++ ": the given function did not return the expected HTML result.\n"
          ++ "given markdown: " ++ goQuote testCase.Markdown
          ++ "\nexpect HTML: " ++ goQuote expect
          ++ "\nactual HTML: " ++ goQuote actual)
      else
        none

/-! ## Sequential mode (source: `SpecCheckWithConcurrency`, lines 100-109)

The `maxConcurrency == noConcurrency` branch: run the cases one at a time in
fixture order, wrapping the first failure with "test failed" and returning it
immediately. -/

def runSequential (testCases : List TestCase) (yourFunc : MdFunc) : Option String :=
  match testCases with
  | [] => none
  | testCase :: rest =>
      match runSingleTest testCase yourFunc with
      | some e => some ("test failed: " ++ e)
      | none => runSequential rest yourFunc

/-- Invocation trace of the sequential loop: the `markdown` inputs passed to
`yourFunc`, in order.  The loop body calls `yourFunc` (inside
`runSingleTest`) once per iteration and breaks out on the first failure. -/
def seqCalls (testCases : List TestCase) (yourFunc : MdFunc) : List String :=
  match testCases with
  | [] => []
  | testCase :: rest =>
      testCase.Markdown ::
        (match runSingleTest testCase yourFunc with
         | some _ => []
         | none => seqCalls rest yourFunc)

/-! ## Fixture store (source: the `embed.FS` value `specFiles`, `loadFile`,
and the file-name constants of mdspec.go lines 26-30).

The embedded corpus is a parameter: a map from slash-separated paths to raw
file contents of some type `α` (raw bytes in Go), failing with the
filesystem's error message for absent paths.  The JSON decoding step is a
second parameter of type `α → Except String (List TestCase)`, mirroring the
source's injectable package variable `jsonUnmarshal`. -/

structure FixtureStore (α : Type) where
  readFile : String → Except String α

def nameDirSpecs : String := "_specs"
def nameFileSpecList : String := "spec_list.json"

/-- Source: `loadFile`.  `filepath.ToSlash(filepath.Join(nameDirSpecs, nameFile))`
on the constant directory and a plain file name is the slash concatenation. -/
def loadFile {α : Type} (specFiles : FixtureStore α) (nameFile : String) :
    Except String α :=
  let pathFile := nameDirSpecs ++ "/" ++ nameFile
  match specFiles.readFile pathFile with
  | .error e => .error ("failed to read file: " ++ e)
  | .ok jsonData => .ok jsonData

/-! ## Version validation (source: `isValidFormatVer` and
`golang.org/x/mod/semver`) -/

def isDigitByte (c : Char) : Bool := '0' ≤ c && c ≤ '9'

/-- Source: `semver.parseInt`.  Consumes a leading run of decimal digits;
fails on an empty input, a non-digit first byte, or a leading zero followed
by more digits. -/
def parseIntSemver (v : List Char) : Option (List Char × List Char) :=
  match v with
  | [] => none
  | c :: _ =>
      if ¬ isDigitByte c then none
      else
        let t := v.takeWhile isDigitByte
        let rest := v.dropWhile isDigitByte
        if c = '0' ∧ t.length ≠ 1 then none
        else some (t, rest)

/-- Source: `semver.isIdentChar`. -/
def isIdentChar (c : Char) : Bool :=
  ('A' ≤ c && c ≤ 'Z') || ('a' ≤ c && c ≤ 'z') || ('0' ≤ c && c ≤ '9') || c = '-'

/-- Source: `semver.isBadNum`: an all-digit identifier with a leading zero
and more than one digit. -/
def isBadNum (v : List Char) : Bool :=
  v.all isDigitByte && decide (v.length > 1) && decide (v.head? = some '0')

/-- Split on `'.'`, keeping empty segments; the segment decomposition that
`semver.parsePrerelease` and `semver.parseBuild` perform with their
`start`/`i` index pair. -/
def splitOnDot (s : List Char) : List (List Char) :=
  match s with
  | [] => [[]]
  | c :: rest =>
      if c = '.' then [] :: splitOnDot rest
      else
        match splitOnDot rest with
        | seg :: segs => (c :: seg) :: segs
        | [] => [[c]]

/-- Source: `semver.parsePrerelease`.  After the `'-'`, scan up to the first
`'+'` (or the end); every byte must be an identifier character or a dot, and
every dot-separated segment must be nonempty and not a bad number. -/
def parsePrerelease (v : List Char) : Option (List Char × List Char) :=
  match v with
  | [] => none
  | c :: w =>
      if c ≠ '-' then none
      else
        let body := w.takeWhile (fun b => b ≠ '+')
        let rest := w.dropWhile (fun b => b ≠ '+')
        if body.all (fun b => isIdentChar b || b = '.')
            && (splitOnDot body).all (fun seg => ¬ seg.isEmpty && ¬ isBadNum seg) then
          some ('-' :: body, rest)
        else none

/-- Source: `semver.parseBuild`.  After the `'+'`, scan to the end; every
byte must be an identifier character or a dot, and every dot-separated
segment must be nonempty (bad numbers are allowed here). -/
def parseBuild (v : List Char) : Option (List Char × List Char) :=
  match v with
  | [] => none
  | c :: w =>
      if c ≠ '+' then none
      else
        if w.all (fun b => isIdentChar b || b = '.')
            && (splitOnDot w).all (fun seg => ¬ seg.isEmpty) then
          some (v, [])
        else none

/-- Source: `semver.parse` / `semver.IsValid`: a leading `'v'`, then one to
three dot-separated numbers, then (only when all three numbers are present)
an optional prerelease and an optional build suffix, then the end of the
string. -/
def semverParseOK (v : List Char) : Bool :=
  match v with
  | [] => false
  | c :: w =>
      if c ≠ 'v' then false
      else
        match parseIntSemver w with
        | none => false
        | some (_, v1) =>
            match v1 with
            | [] => true
            | c1 :: w1 =>
                if c1 ≠ '.' then false
                else
                  match parseIntSemver w1 with
                  | none => false
                  | some (_, v2) =>
                      match v2 with
                      | [] => true
                      | c2 :: w2 =>
                          if c2 ≠ '.' then false
                          else
                            match parseIntSemver w2 with
                            | none => false
                            | some (_, v3) =>
                                match (if v3.head? = some '-' then
                                        parsePrerelease v3
                                      else some ([], v3)) with
                                | none => false
                                | some (_, v4) =>
                                    match (if v4.head? = some '+' then
                                            parseBuild v4
                                          else some ([], v4)) with
                                    | none => false
                                    | some (_, v5) => v5.isEmpty

/-- Source: `semver.IsValid`. -/
def semverIsValid (v : String) : Bool := semverParseOK v.data

/-- Source: `isValidFormatVer` (mdspec.go lines 173-179). -/
def isValidFormatVer (verInput : String) : Bool :=
  if verInput = "latest" then true
  else semverIsValid verInput

/-! ## Validation and loading stage of `SpecCheckWithConcurrency`
(mdspec.go lines 78-98): everything before the mode branch. -/

def specCheckSetup {α : Type} (specFiles : FixtureStore α)
    (jsonUnmarshal : α → Except String (List TestCase)) (specVersion : String) :
    Except String (List TestCase) :=
  if ¬ isValidFormatVer specVersion then
    .error ("invalid spec version format: " ++ specVersion ++ ", it should be like 'v0.14'")
  else
    -- nameFileSpec := fmt.Sprintf("%s%s.json", prefixFileSpec, specVersion)
    let nameFileSpec := "spec_" ++ specVersion ++ ".json"
    match loadFile specFiles nameFileSpec with
    | .error e => .error ("spec file not found: " ++ nameFileSpec ++ ": " ++ e)
    | .ok jsonSpec =>
        match jsonUnmarshal jsonSpec with
        | .error e => .error ("failed to parse list of supported spec versions: " ++ e)
        | .ok testCases => .ok testCases

/-! ## Concurrent mode: the `errgroup` scheduler
(source: `runTestsConcurrently`, mdspec.go lines 224-240, together with the
semantics of `golang.org/x/sync/errgroup`).

The dispatching loop calls `errGroup.Go` once per test case, in fixture
order.  With `SetLimit(n)` for `n ≥ 0`, `Go` blocks until fewer than `n`
goroutines are in flight and then starts the next one; with a negative
argument `SetLimit` imposes no limit at all.  The loop never consults the
cancellation context obtained from `errgroup.WithContext` (the source's
`ctx` variable is never used again), so a dispatch is never skipped because
an earlier test case failed.  `Wait` blocks until every dispatched goroutine
has completed and returns the error of the first goroutine (in completion
order) that returned a non-nil one.

A run is a trace of events over test-case indices: `disp i` (the loop starts
goroutine `i`) and `comp i` (goroutine `i` returns its verdict). -/

inductive Ev where
  | disp (i : Nat)
  | comp (i : Nat)
deriving Repr, DecidableEq

/-- Scheduler state: how many test cases the loop has dispatched so far
(dispatch is in fixture order, so the dispatched indices are `0..dispatched-1`)
and the indices of the completed goroutines, in completion order. -/
structure SchedState where
  dispatched : Nat
  completed : List Nat
deriving Repr, DecidableEq

def initState : SchedState := ⟨0, []⟩

/-- Number of goroutines in flight: dispatched but not yet completed. -/
def inFlight (s : SchedState) : Nat := s.dispatched - s.completed.length

/-- Guard of `errGroup.Go`: with `SetLimit` active (`some k`) a new goroutine
may start only while fewer than `k` are in flight; a negative `SetLimit`
argument (`none`) imposes no limit. -/
def canDispatch : Option Nat → SchedState → Prop
  | none, _ => True
  | some k, s => inFlight s < k

instance (limit : Option Nat) (s : SchedState) : Decidable (canDispatch limit s) := by
  cases limit with
  | none => exact isTrue trivial
  | some k => exact Nat.decLt _ _

/-- One scheduler event for a batch of `n` test cases under the given limit. -/
inductive SchedStep (n : Nat) (limit : Option Nat) :
    SchedState → Ev → SchedState → Prop where
  | disp {s : SchedState} :
      s.dispatched < n → canDispatch limit s →
      SchedStep n limit s (.disp s.dispatched) ⟨s.dispatched + 1, s.completed⟩
  | comp {s : SchedState} {i : Nat} :
      i < s.dispatched → i ∉ s.completed →
      SchedStep n limit s (.comp i) ⟨s.dispatched, s.completed ++ [i]⟩

/-- A sequence of scheduler events. -/
inductive SchedTrace (n : Nat) (limit : Option Nat) :
    SchedState → List Ev → SchedState → Prop where
  | nil (s : SchedState) : SchedTrace n limit s [] s
  | cons {s : SchedState} {e : Ev} {s' : SchedState} {t : List Ev} {s'' : SchedState} :
      SchedStep n limit s e s' → SchedTrace n limit s' t s'' →
      SchedTrace n limit s (e :: t) s''

/-- A complete run of `runTestsConcurrently`'s loop followed by `Wait`:
all `n` test cases dispatched and all of them completed, `ord` being the
completion order. -/
def CompleteRun (n : Nat) (limit : Option Nat) (t : List Ev) (ord : List Nat) : Prop :=
  SchedTrace n limit initState t ⟨n, ord⟩ ∧ ord.length = n

/-- Source: `SetLimit` argument of `runTestsConcurrently`: a `maxConcurrency`
of 0 is first replaced by `runtime.GOMAXPROCS(0)` (the parameter `gomaxprocs`
below); `SetLimit` then means "no limit" for a negative argument and a
capacity-`k` semaphore for `k ≥ 0`. -/
def errgroupLimit (maxConcurrency : Int) (gomaxprocs : Nat) : Option Nat :=
  let resolved : Int := if maxConcurrency = 0 then (gomaxprocs : Int) else maxConcurrency
  if resolved < 0 then none else some resolved.toNat

/-- Result of `errGroup.Wait` followed by the final wrap: the first failing
verdict in completion order, wrapped with "failed to run tests concurrently"
(`errors.Wrap` of a nil error is nil, so a clean run stays clean). -/
def concResult (testCases : List TestCase) (yourFunc : MdFunc) (ord : List Nat) :
    Option String :=
  match (ord.filterMap fun i =>
      match testCases.get? i with
      | some testCase => runSingleTest testCase yourFunc
      | none => none).head? with
  | some e => some ("failed to run tests concurrently: " ++ e)
  | none => none

/-! ## Top-level semantics of the public entry points
(source: `SpecCheckWithConcurrency`, mdspec.go lines 78-112, and `SpecCheck`).

The outcome of a call is deterministic up to the mode branch; in concurrent
mode it is indexed by the scheduler trace, so the overall semantics is a
relation between the call's arguments and the returned error. -/

inductive SpecCheckResult {α : Type} (specFiles : FixtureStore α)
    (jsonUnmarshal : α → Except String (List TestCase)) (specVersion : String)
    (yourFunc : MdFunc) (maxConcurrency : Int) (gomaxprocs : Nat) :
    Option String → Prop where
  | setupErr {e : String} :
      specCheckSetup specFiles jsonUnmarshal specVersion = .error e →
      SpecCheckResult specFiles jsonUnmarshal specVersion yourFunc maxConcurrency
        gomaxprocs (some e)
  | seq {testCases : List TestCase} :
      specCheckSetup specFiles jsonUnmarshal specVersion = .ok testCases →
      maxConcurrency = -1 →
      SpecCheckResult specFiles jsonUnmarshal specVersion yourFunc maxConcurrency
        gomaxprocs (runSequential testCases yourFunc)
  | conc {testCases : List TestCase} {t : List Ev} {ord : List Nat} :
      specCheckSetup specFiles jsonUnmarshal specVersion = .ok testCases →
      maxConcurrency ≠ -1 →
      CompleteRun testCases.length (errgroupLimit maxConcurrency gomaxprocs) t ord →
      SpecCheckResult specFiles jsonUnmarshal specVersion yourFunc maxConcurrency
        gomaxprocs (concResult testCases yourFunc ord)

/-- Source: `defaultConcurrency` (mdspec.go line 36). -/
def defaultConcurrency : Int := 0

/-- Source: `SpecCheck` delegates to `SpecCheckWithConcurrency` with the
default concurrency. -/
def SpecCheckRel {α : Type} (specFiles : FixtureStore α)
    (jsonUnmarshal : α → Except String (List TestCase)) (specVersion : String)
    (yourFunc : MdFunc) (gomaxprocs : Nat) (r : Option String) : Prop :=
  SpecCheckResult specFiles jsonUnmarshal specVersion yourFunc defaultConcurrency
    gomaxprocs r

/-! ## Version listing (source: `ListVersion`, mdspec.go lines 115-141) -/

/-- Source: the `SpecInfo` record shape of the version index
(`version`/`url`/`date` fields, see `_updater/download_specs.go`). -/
structure SpecInfo where
  version : String
  url : String
  date : String
deriving Repr, DecidableEq

/-- Source: `ListVersion`, with the index decoder injected the same way as
the test-case decoder (the source's monkey-patchable `jsonUnmarshal`). -/
def ListVersion {α : Type} (specFiles : FixtureStore α)
    (jsonUnmarshalList : α → Except String (List SpecInfo)) :
    Except String (List String) :=
  match loadFile specFiles nameFileSpecList with
  | .error e => .error ("failed to read list of supported spec versions: " ++ e)
  | .ok jsonList =>
      match jsonUnmarshalList jsonList with
      | .error e => .error ("failed to parse list of supported spec versions: " ++ e)
      | .ok objList => .ok (objList.map SpecInfo.version)

/-! ## Instrumentation of executions

`maxInFlight` is the observable the repository's own concurrency tests track
with an atomic counter: the maximum number of simultaneously in-flight
invocations over a trace of dispatch/completion events.  `seqEvents` is the
event trace of a sequential run with `k` invocations: each call completes
before the next one starts. -/

def evStep : Nat × Nat → Ev → Nat × Nat
  | (cur, mx), .disp _ => (cur + 1, max mx (cur + 1))
  | (cur, mx), .comp _ => (cur - 1, mx)

def maxInFlight (t : List Ev) : Nat := (t.foldl evStep (0, 0)).2

def seqEvents : Nat → List Ev
  | 0 => []
  | k + 1 => seqEvents k ++ [.disp k, .comp k]

/-! ## The version-token grammar claimed by the spec

`specVersionGrammar` is written from the spec's words, to be compared with
the source-derived `isValidFormatVer`: the literal "latest", or `v` followed
by 1-3 dot-separated non-negative integers (digit strings) with no
surrounding/embedded whitespace or other characters.
`specVersionGrammarCanonical` is its restriction to canonical numerals
(no leading zeros), the reading under which the acceptance direction holds. -/

def specVersionGrammar (s : String) : Bool :=
  s = "latest" ||
    (match s.data with
     | [] => false
     | c :: rest =>
         c = 'v' && decide (1 ≤ (splitOnDot rest).length)
           && decide ((splitOnDot rest).length ≤ 3)
           && (splitOnDot rest).all (fun seg => ¬ seg.isEmpty && seg.all isDigitByte))

def specVersionGrammarCanonical (s : String) : Bool :=
  s = "latest" ||
    (match s.data with
     | [] => false
     | c :: rest =>
         c = 'v' && decide (1 ≤ (splitOnDot rest).length)
           && decide ((splitOnDot rest).length ≤ 3)
           && (splitOnDot rest).all (fun seg =>
                ¬ seg.isEmpty && seg.all isDigitByte
                  && (decide (seg.head? ≠ some '0') || decide (seg.length = 1))))

/-- Inverse of `splitOnDot`: re-join the segments with `'.'`. -/
def joinDots : List (List Char) → List Char
  | [] => []
  | [p] => p
  | p :: ps => p ++ '.' :: joinDots ps

/-! ## Modelled corpus

Modelled from the spec: the embedded JSON data files under `_specs/` are not
part of the sources (only the updater that regenerates them is), so their
file inventory is modelled here.  Per the spec's Fixture Store contract and
the updater (`download_specs.go`), the corpus holds exactly the fixed index
file `spec_list.json` plus one `spec_<version>.json` file per indexed
version, the version identifiers being `"v" + <numbers>` — never the literal
`latest`. -/

def corpusPaths (versions : List String) : List String :=
  (nameDirSpecs ++ "/" ++ nameFileSpecList) ::
    versions.map (fun ver => nameDirSpecs ++ "/" ++ "spec_" ++ ver ++ ".json")

def corpusStore {α : Type} (contents : String → α) (versions : List String) :
    FixtureStore α :=
  ⟨fun path =>
    if path ∈ corpusPaths versions then .ok (contents path)
    else .error ("open " ++ path ++ ": file does not exist")⟩

/-- Modelled from the spec: the authored content of the version index file
`spec_list.json`, newest-first from `v0.31.2` down to `v0.13` (the published
CommonMark spec versions carrying a `spec.json`); the `url`/`date` fields are
provenance-only and are not observed by any claim, so they are left blank. -/
def specListModel : List SpecInfo :=
  [⟨"v0.31.2", "", ""⟩, ⟨"v0.30", "", ""⟩, ⟨"v0.29", "", ""⟩, ⟨"v0.28", "", ""⟩,
   ⟨"v0.27", "", ""⟩, ⟨"v0.26", "", ""⟩, ⟨"v0.25", "", ""⟩, ⟨"v0.24", "", ""⟩,
   ⟨"v0.23", "", ""⟩, ⟨"v0.22", "", ""⟩, ⟨"v0.21", "", ""⟩, ⟨"v0.20", "", ""⟩,
   ⟨"v0.19", "", ""⟩, ⟨"v0.18", "", ""⟩, ⟨"v0.17", "", ""⟩, ⟨"v0.16", "", ""⟩,
   ⟨"v0.15", "", ""⟩, ⟨"v0.14", "", ""⟩, ⟨"v0.13", "", ""⟩]

/-- A fixture store holding only the modelled version index. -/
def modelListStore : FixtureStore (List SpecInfo) :=
  ⟨fun path =>
    if path = nameDirSpecs ++ "/" ++ nameFileSpecList then .ok specListModel
    else .error ("open " ++ path ++ ": file does not exist")⟩

/-! ## Concrete sample data for witnesses -/

def caseOne : TestCase := ⟨"a", "<p>a</p>\n", "Sample", 1, 1, 1⟩
def caseTwo : TestCase := ⟨"b", "<p>b</p>\n", "Sample", 2, 2, 2⟩

/-- A user function that always fails (the repository's own
`TestSpecCheckWithConcurrency_error_propagation` uses the same shape). -/
def alwaysFailFunc : MdFunc := fun _ => ("", some "intentional error")

/-- A user function returning a fixed incorrect string (spec §8's
"mismatch detection" scenario). -/
def badHTMLFunc : MdFunc := fun _ => ("<p>bad HTML</p>", none)

/-- A user function answering the two sample cases correctly. -/
def sampleGoodFunc : MdFunc := fun md =>
  (if md = "a" then "<p>a</p>\n" else if md = "b" then "<p>b</p>\n" else "", none)

/-- A two-case fixture store for witnesses: version `v1` maps to the two
sample cases (the raw contents are already-decoded test-case lists, with the
identity decoder standing for `json.Unmarshal`). -/
def sampleStore : FixtureStore (List TestCase) :=
  ⟨fun path =>
    if path = "_specs/spec_v1.json" then .ok [caseOne, caseTwo]
    else .error ("open " ++ path ++ ": file does not exist")⟩

/-- Invariant of the scheduler: completions are distinct, only dispatched
goroutines complete, and the loop dispatches at most the batch size. -/
def SchedInv (n : Nat) (s : SchedState) : Prop :=
  s.completed.Nodup ∧ (∀ i ∈ s.completed, i < s.dispatched) ∧ s.dispatched ≤ n

/-! ## Substring containment

The spec's "fails with a message containing …" is formalised as verbatim
occurrence of the phrase inside the message string. -/

def containsSubstr (s sub : String) : Prop :=
  ∃ pre post : String, s = pre ++ sub ++ post

theorem containsSubstr_intro (s pre sub post : String)
    (h : s = pre ++ (sub ++ post)) : containsSubstr s sub :=
  ⟨pre, post, by rw [h, String.append_assoc]⟩

/-! ## Lemmas about the runner's verdicts -/

/-- Decomposition of the diagnostic header literal around the
"failed to parse markdown" phrase. -/
theorem funcErrorHeader_split :
    (": the given function failed to parse markdown.\n" : String) =
      ": the given function " ++ ("failed to parse markdown" ++ ".\n") := by decide

/-- Decomposition of the diagnostic header literal around the
"did not return the expected HTML result" phrase. -/
theorem mismatchHeader_split :
    (": the given function did not return the expected HTML result.\n" : String) =
      ": the given function " ++ ("did not return the expected HTML result" ++ ".\n") := by
  decide

/-- The message produced by `runSingleTest` when the user function reports an
error. -/
theorem runSingleTest_funcError_eq (testCase : TestCase) (yourFunc : MdFunc) (e : String)
    (h : (yourFunc testCase.Markdown).2 = some e) :
    runSingleTest testCase yourFunc =
      some ("error " ++ (toString testCase.ExampleNum ++ "_" ++ testCase.Section)
        ++ ": the given function failed to parse markdown.\n"
        ++ "given markdown: " ++ goQuote testCase.Markdown
        ++ "\nexpect HTML: " ++ goQuote testCase.HTML
        ++ "\nactual HTML: " ++ goQuote (yourFunc testCase.Markdown).1
        ++ ": " ++ e) := by
  simp only [runSingleTest, h]

/-- When the user function reports an error, `runSingleTest` fails with a
message containing "failed to parse markdown", the test identifier
`<exampleNumber>_<section>`, and the underlying error text. -/
theorem runSingleTest_funcError (testCase : TestCase) (yourFunc : MdFunc) (e : String)
    (h : (yourFunc testCase.Markdown).2 = some e) :
    ∃ msg, runSingleTest testCase yourFunc = some msg ∧
      containsSubstr msg "failed to parse markdown" ∧
      containsSubstr msg (toString testCase.ExampleNum ++ "_" ++ testCase.Section) ∧
      containsSubstr msg e := by
  refine ⟨_, runSingleTest_funcError_eq testCase yourFunc e h, ?_, ?_, ?_⟩
  · refine containsSubstr_intro _
      ("error " ++ (toString testCase.ExampleNum ++ "_" ++ testCase.Section)
        ++ ": the given function ") _
      (".\n" ++ ("given markdown: " ++ (goQuote testCase.Markdown
        ++ ("\nexpect HTML: " ++ (goQuote testCase.HTML
        ++ ("\nactual HTML: " ++ (goQuote (yourFunc testCase.Markdown).1
        ++ (": " ++ e)))))))) ?_
    rw [funcErrorHeader_split]
    simp only [String.append_assoc]
  · refine containsSubstr_intro _ "error "
      (toString testCase.ExampleNum ++ "_" ++ testCase.Section)
      (": the given function failed to parse markdown.\n"
        ++ ("given markdown: " ++ (goQuote testCase.Markdown
        ++ ("\nexpect HTML: " ++ (goQuote testCase.HTML
        ++ ("\nactual HTML: " ++ (goQuote (yourFunc testCase.Markdown).1
        ++ (": " ++ e)))))))) ?_
    simp only [String.append_assoc]
  · refine containsSubstr_intro _
      ("error " ++ (toString testCase.ExampleNum ++ "_" ++ testCase.Section)
        ++ ": the given function failed to parse markdown.\n"
        ++ "given markdown: " ++ goQuote testCase.Markdown
        ++ "\nexpect HTML: " ++ goQuote testCase.HTML
        ++ "\nactual HTML: " ++ goQuote (yourFunc testCase.Markdown).1
        ++ ": ") e "" ?_
    rw [String.append_empty]

/-- The message produced by `runSingleTest` on an HTML mismatch. -/
theorem runSingleTest_mismatch_eq (testCase : TestCase) (yourFunc : MdFunc)
    (h : (yourFunc testCase.Markdown).2 = none)
    (hne : testCase.HTML ≠ (yourFunc testCase.Markdown).1) :
    runSingleTest testCase yourFunc =
      some ("error " ++ (toString testCase.ExampleNum ++ "_" ++ testCase.Section)
        ++ ": the given function did not return the expected HTML result.\n"
        ++ "given markdown: " ++ goQuote testCase.Markdown
        ++ "\nexpect HTML: " ++ goQuote testCase.HTML
        ++ "\nactual HTML: " ++ goQuote (yourFunc testCase.Markdown).1) := by
  simp only [runSingleTest, h, if_pos hne]

/-- When the user function succeeds but its output differs from the expected
HTML, `runSingleTest` fails with a message containing
"did not return the expected HTML result". -/
theorem runSingleTest_mismatch (testCase : TestCase) (yourFunc : MdFunc)
    (h : (yourFunc testCase.Markdown).2 = none)
    (hne : testCase.HTML ≠ (yourFunc testCase.Markdown).1) :
    ∃ msg, runSingleTest testCase yourFunc = some msg ∧
      containsSubstr msg "did not return the expected HTML result" := by
  refine ⟨_, runSingleTest_mismatch_eq testCase yourFunc h hne, ?_⟩
  refine containsSubstr_intro _
    ("error " ++ (toString testCase.ExampleNum ++ "_" ++ testCase.Section)
      ++ ": the given function ") _
    (".\n" ++ ("given markdown: " ++ (goQuote testCase.Markdown
      ++ ("\nexpect HTML: " ++ (goQuote testCase.HTML
      ++ ("\nactual HTML: " ++ goQuote (yourFunc testCase.Markdown).1)))))) ?_
  rw [mismatchHeader_split]
  simp only [String.append_assoc]

/-- When the user function succeeds, the verdict is a pass exactly when the
returned string is byte-for-byte equal to the expected HTML. -/
theorem runSingleTest_pass_iff (testCase : TestCase) (yourFunc : MdFunc)
    (h : (yourFunc testCase.Markdown).2 = none) :
    runSingleTest testCase yourFunc = none ↔
      (yourFunc testCase.Markdown).1 = testCase.HTML := by
  simp only [runSingleTest, h]
  by_cases heq : testCase.HTML = (yourFunc testCase.Markdown).1
  · simp [heq]
  · simp only [ne_eq, heq, not_false_eq_true, if_pos, reduceCtorEq, false_iff]
    exact fun hcontra => heq hcontra.symm

/-! ## Lemmas about the sequential mode -/

/-- When every test case passes, the sequential loop succeeds and invokes the
user function exactly once per fixture, in fixture order. -/
theorem runSequential_all_pass (testCases : List TestCase) (yourFunc : MdFunc)
    (h : ∀ tc ∈ testCases, runSingleTest tc yourFunc = none) :
    runSequential testCases yourFunc = none ∧
      seqCalls testCases yourFunc = testCases.map TestCase.Markdown := by
  induction testCases with
  | nil => exact ⟨rfl, rfl⟩
  | cons tc rest ih =>
      have htc : runSingleTest tc yourFunc = none := h tc (by simp)
      have hrest := ih (fun tc' htc' => h tc' (by simp [htc']))
      constructor
      · simp only [runSequential, htc]
        exact hrest.1
      · simp only [seqCalls, htc, List.map_cons]
        rw [hrest.2]

/-- When the test cases decompose as passing cases, a failing case, and a
remainder, the sequential loop stops at the failing case: it returns its
error wrapped with "test failed" and never invokes the user function on any
later fixture. -/
theorem runSequential_first_fail (yourFunc : MdFunc)
    (pre : List TestCase) (tc : TestCase) (post : List TestCase) (e : String)
    (hpre : ∀ tc' ∈ pre, runSingleTest tc' yourFunc = none)
    (hfail : runSingleTest tc yourFunc = some e) :
    runSequential (pre ++ tc :: post) yourFunc = some ("test failed: " ++ e) ∧
      seqCalls (pre ++ tc :: post) yourFunc = (pre ++ [tc]).map TestCase.Markdown := by
  induction pre with
  | nil =>
      constructor
      · simp only [List.nil_append, runSequential, hfail]
      · simp only [List.nil_append, seqCalls, hfail, List.map_cons, List.map_nil]
  | cons tc' rest ih =>
      have htc' : runSingleTest tc' yourFunc = none := hpre tc' (by simp)
      have hrest := ih (fun x hx => hpre x (by simp [hx]))
      constructor
      · simp only [List.cons_append, runSequential, htc']
        exact hrest.1
      · simp only [List.cons_append, seqCalls, htc', List.map_cons, List.append_eq]
        rw [hrest.2]

/-! ## Lemmas about the instrumentation -/

theorem foldl_evStep_seqEvents (k : Nat) (mx : Nat) :
    (seqEvents k).foldl evStep (0, mx) = (0, if k = 0 then mx else max mx 1) := by
  induction k generalizing mx with
  | zero => rfl
  | succ k ih =>
      simp only [seqEvents, List.foldl_append, ih]
      cases k with
      | zero => simp [evStep]
      | succ k' =>
          simp only [evStep, List.foldl_cons, List.foldl_nil]
          simp [Nat.max_comm, Nat.max_assoc]

/-- A sequential run with at least one invocation has a maximum concurrency
of exactly 1. -/
theorem maxInFlight_seqEvents (k : Nat) (hk : k ≠ 0) :
    maxInFlight (seqEvents k) = 1 := by
  unfold maxInFlight
  rw [foldl_evStep_seqEvents]
  simp [hk]

/-! ## Lemmas about the errgroup scheduler -/

theorem schedInv_init (n : Nat) : SchedInv n initState :=
  ⟨List.nodup_nil, by simp [initState], Nat.zero_le n⟩

theorem schedStep_inv {n : Nat} {limit : Option Nat} {s : SchedState} {e : Ev}
    {s' : SchedState} (hstep : SchedStep n limit s e s') (hinv : SchedInv n s) :
    SchedInv n s' := by
  obtain ⟨hnd, hlt, hle⟩ := hinv
  cases hstep with
  | disp hn _ =>
      exact ⟨hnd, fun i hi => Nat.lt_succ_of_lt (hlt i hi), hn⟩
  | comp hi hmem =>
      refine ⟨?_, ?_, hle⟩
      · simp only [List.nodup_append, List.nodup_cons, List.nodup_nil]
        exact ⟨hnd, by simp, by simpa [List.disjoint_singleton] using hmem⟩
      · intro j hj
        rcases List.mem_append.mp hj with hj | hj
        · exact hlt j hj
        · simp only [List.mem_singleton] at hj
          exact hj ▸ hi

theorem schedTrace_inv {n : Nat} {limit : Option Nat} {s : SchedState}
    {t : List Ev} {s' : SchedState} (htr : SchedTrace n limit s t s')
    (hinv : SchedInv n s) : SchedInv n s' := by
  induction htr with
  | nil => exact hinv
  | cons hstep _ ih => exact ih (schedStep_inv hstep hinv)

/-- Under the invariant, the number of completions cannot exceed the number
of dispatches (the completed indices are distinct naturals below
`dispatched`). -/
theorem completed_length_le {n : Nat} {s : SchedState} (hinv : SchedInv n s) :
    s.completed.length ≤ s.dispatched := by
  obtain ⟨hnd, hlt, _⟩ := hinv
  have hsub : s.completed.toFinset ⊆ Finset.range s.dispatched := by
    intro i hi
    simp only [List.mem_toFinset] at hi
    exact Finset.mem_range.mpr (hlt i hi)
  have hcard := Finset.card_le_card hsub
  rwa [List.toFinset_card_of_nodup hnd, Finset.card_range] at hcard

/-- The semaphore bound of `errgroup.SetLimit`: in any state reachable from
the start of `runTestsConcurrently`'s loop with limit `k`, at most `k`
goroutines — and hence at most `k` invocations of the user function — are in
flight. -/
theorem schedTrace_inFlight_le {n k : Nat} {t : List Ev} {s : SchedState}
    (htr : SchedTrace n (some k) initState t s) : inFlight s ≤ k := by
  suffices h : ∀ s₀ t s₁, SchedTrace n (some k) s₀ t s₁ → SchedInv n s₀ →
      inFlight s₀ ≤ k → inFlight s₁ ≤ k by
    exact h initState t s (htr) (schedInv_init n) (by simp [initState, inFlight])
  intro s₀ t s₁ htr₀
  induction htr₀ with
  | nil => exact fun _ h => h
  | cons hstep htr' ih =>
      intro hinv hle
      refine ih (schedStep_inv hstep hinv) ?_
      have hcle := completed_length_le hinv
      cases hstep with
      | disp hn hcan =>
          simp only [canDispatch] at hcan
          simp only [inFlight] at *
          omega
      | comp hi hmem =>
          simp only [inFlight, List.length_append, List.length_singleton] at *
          omega

/-- A complete run dispatches and completes every one of the `n` test cases
exactly once: the completion order is a permutation of `0..n-1`. -/
theorem completeRun_perm {n : Nat} {limit : Option Nat} {t : List Ev}
    {ord : List Nat} (h : CompleteRun n limit t ord) :
    ord.Nodup ∧ (∀ i, i ∈ ord ↔ i < n) ∧ (∀ i < n, ord.count i = 1) := by
  obtain ⟨htr, hlen⟩ := h
  have hinv := schedTrace_inv htr (schedInv_init n)
  obtain ⟨hnd, hlt, _⟩ := hinv
  have hset : ord.toFinset = Finset.range n := by
    apply Finset.eq_of_subset_of_card_le
    · intro i hi
      simp only [List.mem_toFinset] at hi
      exact Finset.mem_range.mpr (hlt i hi)
    · rw [List.toFinset_card_of_nodup hnd, Finset.card_range, hlen]
  have hmem : ∀ i, i ∈ ord ↔ i < n := by
    intro i
    constructor
    · exact hlt i
    · intro hi
      have : i ∈ ord.toFinset := hset ▸ Finset.mem_range.mpr hi
      simpa [List.mem_toFinset] using this
  exact ⟨hnd, hmem, fun i hi =>
    List.count_eq_one_of_mem hnd ((hmem i).mpr hi)⟩

theorem schedTrace_append {n : Nat} {limit : Option Nat} {s₀ s₁ s₂ : SchedState}
    {t₁ t₂ : List Ev} (h₁ : SchedTrace n limit s₀ t₁ s₁)
    (h₂ : SchedTrace n limit s₁ t₂ s₂) : SchedTrace n limit s₀ (t₁ ++ t₂) s₂ := by
  induction h₁ with
  | nil => exact h₂
  | cons hstep _ ih => exact SchedTrace.cons hstep (ih h₂)

/-- Without a limit, the loop can dispatch the whole batch before any
goroutine completes. -/
theorem schedTrace_all_disp (n : Nat) :
    ∀ k ≤ n, SchedTrace n none initState ((List.range k).map Ev.disp) ⟨k, []⟩ := by
  intro k
  induction k with
  | zero => intro _; exact SchedTrace.nil _
  | succ k ih =>
      intro hk
      rw [List.range_succ, List.map_append, List.map_cons, List.map_nil]
      refine schedTrace_append (ih (Nat.le_of_succ_le hk)) ?_
      have hstep : SchedStep n none ⟨k, []⟩ (.disp k) ⟨k + 1, []⟩ :=
        SchedStep.disp hk trivial
      exact SchedTrace.cons hstep (SchedTrace.nil _)

/-- With the whole batch in flight, the goroutines can then complete in
index order. -/
theorem schedTrace_all_comp (n : Nat) :
    ∀ k j, j + k ≤ n →
      SchedTrace n none ⟨n, List.range j⟩ ((List.range' j k).map Ev.comp)
        ⟨n, List.range (j + k)⟩ := by
  intro k
  induction k with
  | zero => intro j _; simpa using SchedTrace.nil (⟨n, List.range j⟩ : SchedState)
  | succ k ih =>
      intro j hjk
      have hstep : SchedStep n none ⟨n, List.range j⟩ (.comp j)
          ⟨n, List.range j ++ [j]⟩ :=
        SchedStep.comp (show j < n by omega) (by simp [List.mem_range])
      rw [List.range'_succ, List.map_cons]
      have htail := ih (j + 1) (by omega)
      rw [← List.range_succ] at hstep
      have : j + 1 + k = j + (k + 1) := by omega
      rw [this] at htail
      exact SchedTrace.cons hstep htail

/-- Without a limit the whole batch can be in flight at once, and the run
can then complete. -/
theorem schedTrace_unbounded_peak (n : Nat) :
    ∃ t₁ s t₂ ord, SchedTrace n none initState t₁ s ∧ inFlight s = n ∧
      SchedTrace n none s t₂ ⟨n, ord⟩ ∧ ord.length = n := by
  refine ⟨(List.range n).map Ev.disp, ⟨n, []⟩, (List.range' 0 n).map Ev.comp,
    List.range n, schedTrace_all_disp n n le_rfl, by simp [inFlight], ?_, by simp⟩
  have h := schedTrace_all_comp n n 0 (by omega)
  simpa using h

/-- Any reachable in-flight count is bounded by the batch size. -/
theorem schedTrace_inFlight_le_n {n : Nat} {limit : Option Nat} {t : List Ev}
    {s : SchedState} (htr : SchedTrace n limit initState t s) :
    inFlight s ≤ n := by
  have hinv := schedTrace_inv htr (schedInv_init n)
  obtain ⟨_, _, hle⟩ := hinv
  exact le_trans (Nat.sub_le _ _) hle

/-! ## Lemmas about the aggregated concurrent result -/

/-- When every test case passes, a complete concurrent run returns no
error. -/
theorem concResult_all_pass (testCases : List TestCase) (yourFunc : MdFunc)
    (ord : List Nat)
    (h : ∀ tc ∈ testCases, runSingleTest tc yourFunc = none) :
    concResult testCases yourFunc ord = none := by
  unfold concResult
  have hnil : (ord.filterMap fun i =>
      match testCases.get? i with
      | some testCase => runSingleTest testCase yourFunc
      | none => none) = [] := by
    rw [List.filterMap_eq_nil_iff]
    intro i hi
    cases htc : testCases.get? i with
    | none => rfl
    | some tc =>
        have hmem : tc ∈ testCases := List.get?_mem htc
        simpa using h tc hmem
  rw [hnil]
  rfl

/-- When some test case of the batch fails, a complete concurrent run
surfaces exactly one failure: the first failing verdict in completion order,
wrapped with "failed to run tests concurrently".  Every property `P` shared
by all possible failure messages holds for the surfaced one. -/
theorem concResult_first_fail (testCases : List TestCase) (yourFunc : MdFunc)
    (ord : List Nat) (P : String → Prop)
    (hmem : ∀ i, i ∈ ord ↔ i < testCases.length)
    (hall : ∀ tc ∈ testCases, ∀ m, runSingleTest tc yourFunc = some m → P m)
    (hex : ∃ tc ∈ testCases, (runSingleTest tc yourFunc).isSome = true) :
    ∃ m, concResult testCases yourFunc ord =
        some ("failed to run tests concurrently: " ++ m) ∧ P m ∧
      ∃ tc ∈ testCases, runSingleTest tc yourFunc = some m := by
  obtain ⟨tc, htc, hsome⟩ := hex
  obtain ⟨i, hi⟩ := List.mem_iff_get?.mp htc
  have hilt : i < testCases.length := by
    rcases List.get?_eq_some.mp hi with ⟨hl, _⟩
    exact hl
  set f : Nat → Option String := fun j =>
    match testCases.get? j with
    | some testCase => runSingleTest testCase yourFunc
    | none => none with hf
  have hnonnil : ord.filterMap f ≠ [] := by
    intro hL
    have hz := List.filterMap_eq_nil_iff.mp hL i ((hmem i).mpr hilt)
    simp only [hf, hi] at hz
    rw [hz] at hsome
    simp at hsome
  cases hLeq : ord.filterMap f with
  | nil => exact absurd hLeq hnonnil
  | cons m rest =>
      have hmL : m ∈ ord.filterMap f := by
        rw [hLeq]; exact List.mem_cons_self m rest
      obtain ⟨j, _, hfj⟩ := List.mem_filterMap.mp hmL
      have hPm : P m ∧ ∃ tc' ∈ testCases, runSingleTest tc' yourFunc = some m := by
        cases hg : testCases.get? j with
        | none =>
            simp only [hf, hg] at hfj
            exact Option.noConfusion hfj
        | some tc' =>
            simp only [hf, hg] at hfj
            exact ⟨hall tc' (List.get?_mem hg) m hfj, tc', List.get?_mem hg, hfj⟩
      refine ⟨m, ?_, hPm.1, hPm.2⟩
      unfold concResult
      rw [show (ord.filterMap fun j =>
          match testCases.get? j with
          | some testCase => runSingleTest testCase yourFunc
          | none => none) = m :: rest from hLeq]
      rfl

/-! ## Inversion lemmas for the top-level semantics -/

theorem specCheckResult_of_setupErr {α : Type} {specFiles : FixtureStore α}
    {dec : α → Except String (List TestCase)} {specVersion : String}
    {yourFunc : MdFunc} {m : Int} {g : Nat} {r : Option String} {e : String}
    (hsetup : specCheckSetup specFiles dec specVersion = .error e)
    (hr : SpecCheckResult specFiles dec specVersion yourFunc m g r) :
    r = some e := by
  cases hr with
  | setupErr h =>
      have := hsetup.symm.trans h
      injection this with he
      rw [he]
  | seq h _ =>
      rw [hsetup] at h
      exact Except.noConfusion h
  | conc h _ _ =>
      rw [hsetup] at h
      exact Except.noConfusion h

theorem specCheckResult_of_ok_seq {α : Type} {specFiles : FixtureStore α}
    {dec : α → Except String (List TestCase)} {specVersion : String}
    {yourFunc : MdFunc} {g : Nat} {r : Option String} {testCases : List TestCase}
    (hsetup : specCheckSetup specFiles dec specVersion = .ok testCases)
    (hr : SpecCheckResult specFiles dec specVersion yourFunc (-1) g r) :
    r = runSequential testCases yourFunc := by
  cases hr with
  | setupErr h =>
      rw [hsetup] at h
      exact Except.noConfusion h
  | seq h _ =>
      have := hsetup.symm.trans h
      injection this with he
      rw [he]
  | conc _ hm _ => exact absurd rfl hm

theorem specCheckResult_of_ok_conc {α : Type} {specFiles : FixtureStore α}
    {dec : α → Except String (List TestCase)} {specVersion : String}
    {yourFunc : MdFunc} {m : Int} {g : Nat} {r : Option String}
    {testCases : List TestCase}
    (hsetup : specCheckSetup specFiles dec specVersion = .ok testCases)
    (hm : m ≠ -1)
    (hr : SpecCheckResult specFiles dec specVersion yourFunc m g r) :
    ∃ t ord, CompleteRun testCases.length (errgroupLimit m g) t ord ∧
      r = concResult testCases yourFunc ord := by
  cases hr with
  | setupErr h =>
      rw [hsetup] at h
      exact Except.noConfusion h
  | seq _ hm' => exact absurd hm' hm
  | conc h _ hrun =>
      have heq := hsetup.symm.trans h
      injection heq with he
      subst he
      exact ⟨_, _, hrun, rfl⟩

/-! ## The forced schedule of a two-case batch at limit 1

With `SetLimit(1)` and two test cases, the loop can only proceed as:
dispatch case 0, observe its completion, dispatch case 1, observe its
completion — the dispatch of case 1 necessarily happens after case 0's
verdict (a failure included) has been returned. -/

theorem two_one_trace_enum (t : List Ev) (sf : SchedState)
    (htr : SchedTrace 2 (some 1) ⟨0, []⟩ t sf) :
    (t = [] ∧ sf = ⟨0, []⟩) ∨
    (t = [.disp 0] ∧ sf = ⟨1, []⟩) ∨
    (t = [.disp 0, .comp 0] ∧ sf = ⟨1, [0]⟩) ∨
    (t = [.disp 0, .comp 0, .disp 1] ∧ sf = ⟨2, [0]⟩) ∨
    (t = [.disp 0, .comp 0, .disp 1, .comp 1] ∧ sf = ⟨2, [0, 1]⟩) := by
  cases htr with
  | nil => exact Or.inl ⟨rfl, rfl⟩
  | cons hstep1 htr1 =>
    cases hstep1 with
    | comp hi hni => exact absurd hi (by simp)
    | disp h1 h2 =>
      cases htr1 with
      | nil => exact Or.inr (Or.inl ⟨rfl, rfl⟩)
      | cons hstep2 htr2 =>
        cases hstep2 with
        | disp h1' h2' => exact absurd h2' (by decide)
        | comp hi hni =>
          rename_i i
          have hi0 : i = 0 := by
            simp only [SchedState.dispatched] at hi
            omega
          subst hi0
          cases htr2 with
          | nil => exact Or.inr (Or.inr (Or.inl ⟨rfl, rfl⟩))
          | cons hstep3 htr3 =>
            cases hstep3 with
            | comp hi' hni' =>
                rename_i i'
                have : i' = 0 := by
                  simp only [SchedState.dispatched] at hi'
                  omega
                subst this
                simp at hni'
            | disp h1'' h2'' =>
              cases htr3 with
              | nil => exact Or.inr (Or.inr (Or.inr (Or.inl ⟨rfl, rfl⟩)))
              | cons hstep4 htr4 =>
                cases hstep4 with
                | disp h1''' _ => exact absurd h1''' (by decide)
                | comp hi4 hni4 =>
                  rename_i i4
                  have hi41 : i4 = 1 := by
                    simp only [SchedState.dispatched] at hi4
                    simp only [SchedState.completed, List.nil_append,
                      List.mem_singleton] at hni4
                    omega
                  subst hi41
                  cases htr4 with
                  | nil => exact Or.inr (Or.inr (Or.inr (Or.inr ⟨rfl, rfl⟩)))
                  | cons hstep5 _ =>
                    cases hstep5 with
                    | disp h15 _ => exact absurd h15 (by decide)
                    | comp hi5 hni5 =>
                        rename_i i5
                        simp only [SchedState.dispatched] at hi5
                        simp only [SchedState.completed, List.nil_append,
                          List.cons_append, List.mem_cons,
                          List.mem_singleton] at hni5
                        omega

theorem forced_trace_two_one (t : List Ev) (ord : List Nat)
    (h : CompleteRun 2 (some 1) t ord) :
    t = [.disp 0, .comp 0, .disp 1, .comp 1] ∧ ord = [0, 1] := by
  obtain ⟨htr, hlen⟩ := h
  have henum := two_one_trace_enum t ⟨2, ord⟩ htr
  rcases henum with ⟨ht, hs⟩ | ⟨ht, hs⟩ | ⟨ht, hs⟩ | ⟨ht, hs⟩ | ⟨ht, hs⟩ <;>
    injection hs with hd hc
  · omega
  · omega
  · omega
  · rw [hc] at hlen
    simp at hlen
  · exact ⟨ht, hc⟩

/-! ## Lemmas about the semver validator -/

theorem splitOnDot_ne_nil (s : List Char) : splitOnDot s ≠ [] := by
  cases s with
  | nil => simp [splitOnDot]
  | cons c rest =>
      simp only [splitOnDot]
      by_cases hc : c = '.'
      · simp [hc]
      · simp only [if_neg hc]
        cases h : splitOnDot rest with
        | nil => simp
        | cons seg segs => simp

theorem joinDots_splitOnDot (s : List Char) : joinDots (splitOnDot s) = s := by
  induction s with
  | nil => rfl
  | cons c rest ih =>
      simp only [splitOnDot]
      by_cases hc : c = '.'
      · rw [if_pos hc]
        cases h : splitOnDot rest with
        | nil => exact absurd h (splitOnDot_ne_nil rest)
        | cons seg segs =>
            rw [h] at ih
            subst hc
            simp only [joinDots, List.nil_append]
            rw [ih]
      · rw [if_neg hc]
        cases h : splitOnDot rest with
        | nil => exact absurd h (splitOnDot_ne_nil rest)
        | cons seg segs =>
            rw [h] at ih
            cases segs with
            | nil =>
                simp only [joinDots] at ih ⊢
                rw [ih]
            | cons q qs =>
                simp only [joinDots, List.cons_append] at ih ⊢
                rw [ih]

theorem takeWhile_dropWhile_all_append (p : Char → Bool) (d rest : List Char)
    (hall : ∀ c ∈ d, p c = true)
    (hrest : ∀ c, rest.head? = some c → p c = false) :
    (d ++ rest).takeWhile p = d ∧ (d ++ rest).dropWhile p = rest := by
  induction d with
  | nil =>
      simp only [List.nil_append]
      cases rest with
      | nil => simp
      | cons c cs =>
          have hc := hrest c rfl
          simp [List.takeWhile_cons, List.dropWhile_cons, hc]
  | cons c cs ih =>
      have hc := hall c (by simp)
      have hih := ih (fun x hx => hall x (by simp [hx]))
      simp only [List.cons_append, List.takeWhile_cons, List.dropWhile_cons, hc,
        if_true]
      exact ⟨by rw [hih.1], by rw [hih.2]⟩

/-- On a nonempty all-digit token without a bad leading zero, followed by a
non-digit remainder, `semver.parseInt` consumes exactly the token. -/
theorem parseIntSemver_exact (d rest : List Char) (hne : d ≠ [])
    (hdig : ∀ c ∈ d, isDigitByte c = true)
    (hlz : d.head? = some '0' → d.length = 1)
    (hrest : ∀ c, rest.head? = some c → isDigitByte c = false) :
    parseIntSemver (d ++ rest) = some (d, rest) := by
  cases d with
  | nil => exact absurd rfl hne
  | cons c cs =>
      have hc : isDigitByte c = true := hdig c (by simp)
      obtain ⟨ht, hd⟩ :=
        takeWhile_dropWhile_all_append isDigitByte (c :: cs) rest hdig hrest
      simp only [List.cons_append] at ht hd
      simp only [List.cons_append, parseIntSemver, hc, not_true_eq_false,
        if_false, ht, hd]
      rw [if_neg]
      rintro ⟨h0, hlen⟩
      exact hlen (hlz (by rw [h0]; rfl))

/-- Every version token of the claimed grammar whose numeric components are
canonical (no leading zeros) is accepted by the semver parser. -/
theorem grammar_accept_core (rest : List Char)
    (hlen3 : (splitOnDot rest).length ≤ 3)
    (hsegs : ∀ seg ∈ splitOnDot rest, seg ≠ [] ∧ (∀ c ∈ seg, isDigitByte c = true) ∧
      (seg.head? = some '0' → seg.length = 1)) :
    semverParseOK ('v' :: rest) = true := by
  have hjoin := joinDots_splitOnDot rest
  cases hp : splitOnDot rest with
  | nil => exact absurd hp (splitOnDot_ne_nil rest)
  | cons p ps =>
    rw [hp] at hjoin hsegs hlen3
    obtain ⟨hpne, hpdig, hplz⟩ := hsegs p (by simp)
    cases ps with
    | nil =>
        simp only [joinDots] at hjoin
        have hpi := parseIntSemver_exact p [] hpne hpdig hplz
          (fun c h => by simp at h)
        rw [List.append_nil] at hpi
        subst hjoin
        simp [semverParseOK, hpi]
    | cons q qs =>
      obtain ⟨hqne, hqdig, hqlz⟩ := hsegs q (by simp)
      cases qs with
      | nil =>
          simp only [joinDots] at hjoin
          have hpi := parseIntSemver_exact p ('.' :: q) hpne hpdig hplz
            (by intro c h; simp at h; subst h; decide)
          have hqi := parseIntSemver_exact q [] hqne hqdig hqlz
            (fun c h => by simp at h)
          rw [List.append_nil] at hqi
          subst hjoin
          simp [semverParseOK, hpi, hqi]
      | cons r rs =>
          have hrs : rs = [] := by
            simp only [List.length_cons] at hlen3
            have : rs.length = 0 := by omega
            exact List.length_eq_zero.mp this
          subst hrs
          obtain ⟨hrne, hrdig, hrlz⟩ := hsegs r (by simp)
          simp only [joinDots] at hjoin
          have hpi := parseIntSemver_exact p ('.' :: (q ++ '.' :: r)) hpne hpdig hplz
            (by intro c h; simp at h; subst h; decide)
          have hqi := parseIntSemver_exact q ('.' :: r) hqne hqdig hqlz
            (by intro c h; simp at h; subst h; decide)
          have hri := parseIntSemver_exact r [] hrne hrdig hrlz
            (fun c h => by simp at h)
          rw [List.append_nil] at hri
          rw [← List.cons_append, ← List.append_assoc] at hjoin
          rw [List.append_assoc, List.cons_append] at hjoin
          subst hjoin
          simp [semverParseOK, hpi, hqi, hri]

/-- Acceptance direction of the amended grammar claim: every token of the
spec's grammar with canonical (no-leading-zero) numerals is accepted by
`isValidFormatVer`. -/
theorem specVersionGrammarCanonical_accepted (s : String)
    (h : specVersionGrammarCanonical s = true) : isValidFormatVer s = true := by
  by_cases hlat : s = "latest"
  · simp [isValidFormatVer, hlat]
  · unfold specVersionGrammarCanonical at h
    rw [Bool.or_eq_true] at h
    rcases h with h | h
    · exact absurd (by simpa using h) hlat
    · cases hs : s.data with
      | nil => rw [hs] at h; simp at h
      | cons c rest =>
          rw [hs] at h
          simp only [Bool.and_eq_true, decide_eq_true_eq, List.all_eq_true] at h
          obtain ⟨⟨⟨hcv, _⟩, hlen3⟩, hsegs⟩ := h
          have hcv' : c = 'v' := by simpa using hcv
          subst hcv'
          unfold isValidFormatVer
          rw [if_neg hlat]
          unfold semverIsValid
          rw [hs]
          apply grammar_accept_core rest hlen3
          intro seg hseg
          have hfacts := hsegs seg hseg
          simp only [Bool.and_eq_true, Bool.or_eq_true, decide_eq_true_eq,
            List.all_eq_true, Bool.not_eq_true'] at hfacts
          obtain ⟨⟨hne, hdig⟩, hlz⟩ := hfacts
          refine ⟨?_, hdig, ?_⟩
          · intro hnil
            rw [hnil] at hne
            simp at hne
          · intro h0
            rcases hlz with hlz | hlz
            · exact absurd h0 hlz
            · exact hlz

/-! ## String cancellation helpers -/

theorem string_ext {s t : String} (h : s.data = t.data) : s = t := by
  cases s
  cases t
  exact congrArg String.mk h

/-- A `spec_<ver>.json` corpus path determines the version token. -/
theorem corpusPath_version_inj (ver v : String)
    (h : nameDirSpecs ++ "/" ++ "spec_" ++ ver ++ ".json" =
      nameDirSpecs ++ "/" ++ ("spec_" ++ v ++ ".json")) : ver = v := by
  have hdata := congrArg String.data h
  simp only [String.data_append, List.append_assoc] at hdata
  have h1 := List.append_cancel_left (List.append_cancel_left
    (List.append_cancel_left hdata))
  exact string_ext (List.append_cancel_right h1)

/-- The modelled corpus holds no `spec_latest.json`: resolving the literal
`latest` token misses the store. -/
theorem corpusStore_latest_missing {α : Type} (contents : String → α)
    (versions : List String) (hv : ∀ ver ∈ versions, ver ≠ "latest") :
    (corpusStore contents versions).readFile
        (nameDirSpecs ++ "/" ++ ("spec_" ++ "latest" ++ ".json")) =
      .error ("open " ++ (nameDirSpecs ++ "/" ++ ("spec_" ++ "latest" ++ ".json"))
        ++ ": file does not exist") := by
  have hnot : (nameDirSpecs ++ "/" ++ "spec_latest.json")
      ∉ corpusPaths versions := by
    intro hmem
    unfold corpusPaths at hmem
    rcases List.mem_cons.mp hmem with heq | hmap
    · revert heq
      decide
    · obtain ⟨ver, hver, heq⟩ := List.mem_map.mp hmap
      have heq' := heq.trans
        (show nameDirSpecs ++ "/" ++ "spec_latest.json" =
          nameDirSpecs ++ "/" ++ ("spec_" ++ "latest" ++ ".json") by decide)
      exact hv ver hver (corpusPath_version_inj ver "latest" heq')
  simp [corpusStore, hnot]

/-! ## Claim theorems -/

/-- C7: for every version string failing syntax validation,
`SpecCheckWithConcurrency` (and hence `SpecCheck`, the `maxConcurrency = 0`
instance) returns the InvalidVersionFormat error immediately: the returned
error is a fixed function of the version string alone — the fixture store,
the decoder and the user function (all universally quantified here) are
never consulted, so no file is read and the user function is never
invoked. -/
theorem C7_invalid_version_rejected_early (specVersion : String)
    (hv : isValidFormatVer specVersion = false) :
    ∀ (α : Type) (specFiles : FixtureStore α)
      (dec : α → Except String (List TestCase)),
      specCheckSetup specFiles dec specVersion =
        .error ("invalid spec version format: " ++ specVersion
          ++ ", it should be like 'v0.14'") ∧
      ∀ (yourFunc : MdFunc) (m : Int) (g : Nat) (r : Option String),
        SpecCheckResult specFiles dec specVersion yourFunc m g r →
        r = some ("invalid spec version format: " ++ specVersion
          ++ ", it should be like 'v0.14'") := by
  intro α specFiles dec
  have hsetup : specCheckSetup specFiles dec specVersion =
      .error ("invalid spec version format: " ++ specVersion
        ++ ", it should be like 'v0.14'") := by
    unfold specCheckSetup
    rw [if_pos]
    simp [hv]
  exact ⟨hsetup, fun yourFunc m g r hr => specCheckResult_of_setupErr hsetup hr⟩

/-- C7 witness: the invalid version string `"0.14"` (no leading `v`),
rejected with the InvalidVersionFormat error for an arbitrary store. -/
theorem C7_invalid_version_rejected_early_witness :
    specCheckSetup sampleStore Except.ok "0.14" =
      .error ("invalid spec version format: " ++ "0.14"
        ++ ", it should be like 'v0.14'") :=
  (C7_invalid_version_rejected_early "0.14" (by decide) (List TestCase)
    sampleStore Except.ok).1

/-- C9: the token `latest` passes syntax validation but is substituted
literally into the file name `spec_latest.json`; the modelled corpus holds
no such file, so every call with version `latest` returns the
"spec file not found" error naming that file, for every user function,
every concurrency mode and every decoder — the user function is never
invoked since the run never reaches the test cases. -/
theorem C9_latest_not_resolved {α : Type} (contents : String → α)
    (versions : List String) (dec : α → Except String (List TestCase))
    (hv : ∀ ver ∈ versions, ver ≠ "latest") :
    isValidFormatVer "latest" = true ∧
    specCheckSetup (corpusStore contents versions) dec "latest" =
      .error ("spec file not found: spec_latest.json: failed to read file: open _specs/spec_latest.json: file does not exist") ∧
    containsSubstr "spec file not found: spec_latest.json: failed to read file: open _specs/spec_latest.json: file does not exist" "spec file not found" ∧
    ∀ (yourFunc : MdFunc) (m : Int) (g : Nat) (r : Option String),
      SpecCheckResult (corpusStore contents versions) dec "latest" yourFunc m g r →
      r = some "spec file not found: spec_latest.json: failed to read file: open _specs/spec_latest.json: file does not exist" := by
  have hsetup : specCheckSetup (corpusStore contents versions) dec "latest" =
      .error ("spec file not found: spec_latest.json: failed to read file: open _specs/spec_latest.json: file does not exist") := by
    unfold specCheckSetup
    rw [if_neg (by decide)]
    unfold loadFile
    simp only [corpusStore_latest_missing contents versions hv]
    congr 1
  refine ⟨by decide, hsetup, ?_, fun yourFunc m g r hr =>
    specCheckResult_of_setupErr hsetup hr⟩
  exact containsSubstr_intro _ "" "spec file not found"
    (": spec_latest.json: failed to read file: open _specs/spec_latest.json: file does not exist")
    (by decide)

/-- C9 witness: the modelled corpus of the published versions, a trivial
decoder, and the `latest` token. -/
theorem C9_latest_not_resolved_witness :
    isValidFormatVer "latest" = true ∧
    specCheckSetup (corpusStore (fun _ => ([] : List TestCase))
        (specListModel.map SpecInfo.version)) Except.ok "latest" =
      .error ("spec file not found: spec_latest.json: failed to read file: open _specs/spec_latest.json: file does not exist") := by
  have h := C9_latest_not_resolved (fun _ => ([] : List TestCase))
    (specListModel.map SpecInfo.version) Except.ok (by decide)
  exact ⟨h.1, h.2.1⟩

/-- C8: `ListVersion` returns exactly the version identifiers of the decoded
version-index file, in the index's authored order, with URL and date
stripped; on the modelled reference corpus this is the exact ordered
sequence from `v0.31.2` down to `v0.13`. -/
theorem C8_list_version_order {α : Type} (specFiles : FixtureStore α)
    (decList : α → Except String (List SpecInfo)) (raw : α)
    (index : List SpecInfo)
    (hread : specFiles.readFile (nameDirSpecs ++ "/" ++ nameFileSpecList) = .ok raw)
    (hdec : decList raw = .ok index) :
    ListVersion specFiles decList = .ok (index.map SpecInfo.version) ∧
    ListVersion modelListStore Except.ok = .ok
      ["v0.31.2", "v0.30", "v0.29", "v0.28", "v0.27", "v0.26", "v0.25",
       "v0.24", "v0.23", "v0.22", "v0.21", "v0.20", "v0.19", "v0.18",
       "v0.17", "v0.16", "v0.15", "v0.14", "v0.13"] := by
  constructor
  · unfold ListVersion loadFile
    simp only [hread, hdec]
  · rfl

/-- C8 witness: the modelled store itself. -/
theorem C8_list_version_order_witness :
    ListVersion modelListStore Except.ok = .ok
      ["v0.31.2", "v0.30", "v0.29", "v0.28", "v0.27", "v0.26", "v0.25",
       "v0.24", "v0.23", "v0.22", "v0.21", "v0.20", "v0.19", "v0.18",
       "v0.17", "v0.16", "v0.15", "v0.14", "v0.13"] :=
  (C8_list_version_order modelListStore Except.ok specListModel specListModel
    (by rfl) rfl).2

/-- C3 counterexample: the claim "every string violating the grammar is
rejected" fails — `v1.0.0-alpha` contains characters outside the claimed
`v` + 1-3 dot-separated integers grammar, yet the validator accepts it,
because `x/mod/semver` admits a prerelease suffix after a full three-part
version. -/
theorem C3_version_grammar_counterexample :
    isValidFormatVer "v1.0.0-alpha" = true ∧
      specVersionGrammar "v1.0.0-alpha" = false := by decide

/-- C3 (amended): the validator accepts `latest` and every token of the
claimed grammar whose numerals are canonical (no leading zeros); beyond the
claimed grammar it also accepts semver prerelease/build suffixes after a
full three-part version (e.g. `v1.0.0-alpha`, `v1.0.0+build`) but not after
one- or two-part versions; a numeral with a leading zero (`v01`), a missing
leading `v`, extra leading characters, and a trailing newline are all
rejected. -/
theorem C3_version_grammar_amended :
    (∀ s, specVersionGrammarCanonical s = true → isValidFormatVer s = true) ∧
    isValidFormatVer "latest" = true ∧
    isValidFormatVer "v0.14" = true ∧
    isValidFormatVer "v0.31.2" = true ∧
    isValidFormatVer "v1" = true ∧
    isValidFormatVer "v1.0.0-alpha" = true ∧
    isValidFormatVer "v1.0.0+build" = true ∧
    isValidFormatVer "v1.0-alpha" = false ∧
    isValidFormatVer "0.14" = false ∧
    isValidFormatVer "version 1.14" = false ∧
    isValidFormatVer "vvvv1.14" = false ∧
    isValidFormatVer "v0.14\n" = false ∧
    isValidFormatVer "v01" = false :=
  ⟨specVersionGrammarCanonical_accepted, by decide, by decide, by decide,
    by decide, by decide, by decide, by decide, by decide, by decide,
    by decide, by decide, by decide⟩

/-- C3 witness: the acceptance direction applied to the grammar token
`v0.30`. -/
theorem C3_version_grammar_amended_witness :
    isValidFormatVer "v0.30" = true :=
  C3_version_grammar_amended.1 "v0.30" (by decide)

/-- C4: with `maxConcurrency = -1` the call runs the resolved test cases
strictly one at a time in fixture order (the instrumented maximum
concurrency is exactly 1), short-circuits on the first failing case — no
later fixture is invoked — and, when every case passes, invokes the user
function exactly once per fixture. -/
theorem C4_sequential_mode {α : Type} (specFiles : FixtureStore α)
    (dec : α → Except String (List TestCase)) (specVersion : String)
    (yourFunc : MdFunc) (g : Nat) (testCases : List TestCase)
    (hsetup : specCheckSetup specFiles dec specVersion = .ok testCases) :
    (∀ r, SpecCheckResult specFiles dec specVersion yourFunc (-1) g r →
        r = runSequential testCases yourFunc) ∧
    ((∀ tc ∈ testCases, runSingleTest tc yourFunc = none) →
        runSequential testCases yourFunc = none ∧
        seqCalls testCases yourFunc = testCases.map TestCase.Markdown) ∧
    (∀ pre tc post e, testCases = pre ++ tc :: post →
        (∀ tc' ∈ pre, runSingleTest tc' yourFunc = none) →
        runSingleTest tc yourFunc = some e →
        runSequential testCases yourFunc = some ("test failed: " ++ e) ∧
        seqCalls testCases yourFunc = (pre ++ [tc]).map TestCase.Markdown) ∧
    (testCases ≠ [] →
        maxInFlight (seqEvents (seqCalls testCases yourFunc).length) = 1) := by
  refine ⟨fun r hr => specCheckResult_of_ok_seq hsetup hr,
    runSequential_all_pass testCases yourFunc, ?_, ?_⟩
  · intro pre tc post e hdecomp hpre hfail
    rw [hdecomp]
    exact runSequential_first_fail yourFunc pre tc post e hpre hfail
  · intro hne
    apply maxInFlight_seqEvents
    cases testCases with
    | nil => exact absurd rfl hne
    | cons tc rest => simp [seqCalls]

/-- C4 witness: the two-case sample store with a correct user function — the
sequential run passes and invokes the function once per fixture, in
order. -/
theorem C4_sequential_mode_witness :
    runSequential [caseOne, caseTwo] sampleGoodFunc = none ∧
      seqCalls [caseOne, caseTwo] sampleGoodFunc = ["a", "b"] := by
  have h := C4_sequential_mode sampleStore Except.ok "v1" sampleGoodFunc 1
    [caseOne, caseTwo] (by rfl)
  have h2 := h.2.1 (by decide)
  exact ⟨h2.1, by rw [h2.2]; rfl⟩

/-- C2: for `N ≥ 1`, `SpecCheckWithConcurrency(version, fn, N)` resolves the
errgroup limit to `N` and no reachable scheduler state has more than `N`
invocations in flight; for `N = 0` the resolved limit is the platform
default `GOMAXPROCS` and the same bound holds with that value; every
complete run completes (hence invokes) every fixture exactly once, and when
every fixture passes the call returns success. -/
theorem C2_bounded_concurrency {α : Type} (specFiles : FixtureStore α)
    (dec : α → Except String (List TestCase)) (specVersion : String)
    (yourFunc : MdFunc) (g : Nat) (N : Int) (testCases : List TestCase)
    (hsetup : specCheckSetup specFiles dec specVersion = .ok testCases) :
    (1 ≤ N → errgroupLimit N g = some N.toNat ∧
      ∀ t s, SchedTrace testCases.length (some N.toNat) initState t s →
        inFlight s ≤ N.toNat) ∧
    (errgroupLimit 0 g = some g ∧
      ∀ t s, SchedTrace testCases.length (some g) initState t s →
        inFlight s ≤ g) ∧
    (∀ t ord, CompleteRun testCases.length (errgroupLimit N g) t ord →
      (∀ i < testCases.length, ord.count i = 1) ∧
      ((∀ tc ∈ testCases, runSingleTest tc yourFunc = none) → N ≠ -1 →
        SpecCheckResult specFiles dec specVersion yourFunc N g none)) := by
  refine ⟨?_, ⟨?_, fun t s htr => schedTrace_inFlight_le htr⟩, ?_⟩
  · intro hN
    refine ⟨?_, fun t s htr => schedTrace_inFlight_le htr⟩
    unfold errgroupLimit
    rw [if_neg (by omega), if_neg (by omega)]
  · unfold errgroupLimit
    rw [if_pos rfl, if_neg (by omega)]
    simp
  · intro t ord hrun
    obtain ⟨_, _, hcount⟩ := completeRun_perm hrun
    refine ⟨hcount, fun hpass hN => ?_⟩
    have hres := @SpecCheckResult.conc α specFiles dec specVersion yourFunc N g
      testCases t ord hsetup hN hrun
    rwa [concResult_all_pass testCases yourFunc ord hpass] at hres

/-- C2 witness: limit resolution and the exactly-once guarantee on an
explicit complete run of the two sample cases with `N = 2`. -/
theorem C2_bounded_concurrency_witness :
    errgroupLimit 2 1 = some 2 ∧ errgroupLimit 0 1 = some 1 ∧
      ([0, 1].count 0 = 1 ∧ [0, 1].count 1 = 1) := by
  have h := C2_bounded_concurrency sampleStore Except.ok "v1" sampleGoodFunc 1 2
    [caseOne, caseTwo] (by rfl)
  have hrun : CompleteRun 2 (errgroupLimit 2 1) [.disp 0, .disp 1, .comp 0, .comp 1]
      [0, 1] := by
    refine ⟨?_, rfl⟩
    refine SchedTrace.cons (SchedStep.disp (by decide) (by decide)) ?_
    refine SchedTrace.cons (SchedStep.disp (by decide) (by decide)) ?_
    refine SchedTrace.cons (SchedStep.comp (by decide) (by decide)) ?_
    refine SchedTrace.cons (SchedStep.comp (by decide) (by decide)) ?_
    exact SchedTrace.nil _
  have h3 := (h.2.2 _ _ hrun).1
  exact ⟨(h.1 (by omega)).1, h.2.1.1, h3 0 (by decide), h3 1 (by decide)⟩

/-- C10: every `maxConcurrency ≠ -1` takes the concurrent path (the result
arises from a complete errgroup run); for `maxConcurrency < -1` the value
passed to `SetLimit` is negative, which means no limit at all: the in-flight
count is bounded only by the number of test cases, and a run really can have
the whole batch in flight simultaneously. -/
theorem C10_negative_limit_unbounded {α : Type} (specFiles : FixtureStore α)
    (dec : α → Except String (List TestCase)) (specVersion : String)
    (yourFunc : MdFunc) (g : Nat) (m : Int) (testCases : List TestCase)
    (hsetup : specCheckSetup specFiles dec specVersion = .ok testCases)
    (hm : m < -1) :
    (∀ m' : Int, m' ≠ -1 → ∀ r,
        SpecCheckResult specFiles dec specVersion yourFunc m' g r →
        ∃ t ord, CompleteRun testCases.length (errgroupLimit m' g) t ord ∧
          r = concResult testCases yourFunc ord) ∧
    errgroupLimit m g = none ∧
    (∀ t s, SchedTrace testCases.length none initState t s →
        inFlight s ≤ testCases.length) ∧
    (∃ t₁ s t₂ ord, SchedTrace testCases.length none initState t₁ s ∧
        inFlight s = testCases.length ∧
        SchedTrace testCases.length none s t₂ ⟨testCases.length, ord⟩ ∧
        ord.length = testCases.length) := by
  refine ⟨fun m' hm' r hr => specCheckResult_of_ok_conc hsetup hm' hr, ?_,
    fun t s htr => schedTrace_inFlight_le_n htr, schedTrace_unbounded_peak _⟩
  unfold errgroupLimit
  have h0 : ¬ (m = 0) := by omega
  rw [if_neg h0, if_pos (show m < 0 by omega)]

/-- C10 witness: `maxConcurrency = -2` resolves to an unlimited errgroup. -/
theorem C10_negative_limit_unbounded_witness : errgroupLimit (-2) 1 = none :=
  (C10_negative_limit_unbounded sampleStore Except.ok "v1" sampleGoodFunc 1 (-2)
    [caseOne, caseTwo] (by rfl) (by omega)).2.1

/-- C1 (evidence of the code bug): with two test cases, a limit of 1, and a
user function that always fails, the scheduler's only complete run is
dispatch 0, complete 0 (a failure), dispatch 1, complete 1 — the dispatch of
test case 1 necessarily happens after test case 0's failure has been
observed, because the source's loop never consults the cancellation context
(`ctx` is unused): the claimed "no new test cases are dispatched after the
first Fail" does not hold on the code.  The first-observed failure (case
0's) is still the one returned. -/
theorem C1_no_dispatch_after_failure_violated :
    (∃ msg, runSingleTest caseOne alwaysFailFunc = some msg) ∧
    (∀ t ord, CompleteRun 2 (some 1) t ord →
        t = [.disp 0, .comp 0, .disp 1, .comp 1] ∧ ord = [0, 1]) ∧
    (∀ t ord, CompleteRun 2 (some 1) t ord →
        ∃ t₁ t₂, t = t₁ ++ Ev.comp 0 :: t₂ ∧ Ev.disp 1 ∈ t₂) ∧
    (∃ t ord, CompleteRun 2 (some 1) t ord) ∧
    (∀ r, SpecCheckResult sampleStore Except.ok "v1" alwaysFailFunc 1 1 r →
        r = concResult [caseOne, caseTwo] alwaysFailFunc [0, 1]) := by
  have hrun : CompleteRun 2 (some 1) [.disp 0, .comp 0, .disp 1, .comp 1]
      [0, 1] := by
    refine ⟨?_, rfl⟩
    refine SchedTrace.cons (SchedStep.disp (by decide) (by decide)) ?_
    refine SchedTrace.cons (SchedStep.comp (by decide) (by decide)) ?_
    refine SchedTrace.cons (SchedStep.disp (by decide) (by decide)) ?_
    refine SchedTrace.cons (SchedStep.comp (by decide) (by decide)) ?_
    exact SchedTrace.nil _
  refine ⟨⟨_, rfl⟩, forced_trace_two_one, ?_, ⟨_, _, hrun⟩, ?_⟩
  · intro t ord h
    obtain ⟨ht, _⟩ := forced_trace_two_one t ord h
    exact ⟨[.disp 0], [.disp 1, .comp 1], by rw [ht]; rfl, by simp⟩
  · intro r hr
    obtain ⟨t, ord, hrun', hres⟩ :=
      @specCheckResult_of_ok_conc (List TestCase) sampleStore Except.ok "v1"
        alwaysFailFunc 1 1 r [caseOne, caseTwo] (by rfl) (by decide) hr
    have hlim : errgroupLimit 1 1 = some 1 := rfl
    rw [show ([caseOne, caseTwo] : List TestCase).length = 2 from rfl, hlim]
      at hrun'
    obtain ⟨_, hord⟩ := forced_trace_two_one t ord hrun'
    rw [hres, hord]

/-- C1 witness: the forced-schedule theorem applied to the explicit run. -/
theorem C1_no_dispatch_after_failure_violated_witness :
    ∃ t₁ t₂, ([Ev.disp 0, Ev.comp 0, Ev.disp 1, Ev.comp 1] : List Ev) =
        t₁ ++ Ev.comp 0 :: t₂ ∧ Ev.disp 1 ∈ t₂ := by
  have hrun : CompleteRun 2 (some 1) [.disp 0, .comp 0, .disp 1, .comp 1]
      [0, 1] := by
    refine ⟨?_, rfl⟩
    refine SchedTrace.cons (SchedStep.disp (by decide) (by decide)) ?_
    refine SchedTrace.cons (SchedStep.comp (by decide) (by decide)) ?_
    refine SchedTrace.cons (SchedStep.disp (by decide) (by decide)) ?_
    refine SchedTrace.cons (SchedStep.comp (by decide) (by decide)) ?_
    exact SchedTrace.nil _
  exact C1_no_dispatch_after_failure_violated.2.2.1 _ _ hrun

theorem containsSubstr_append_left (a s sub : String)
    (h : containsSubstr s sub) : containsSubstr (a ++ s) sub := by
  obtain ⟨pre, post, hp⟩ := h
  exact ⟨a ++ pre, post, by simp only [hp, String.append_assoc]⟩

/-- C5: when the user function succeeds on a test case, the runner passes
exactly when the returned string is byte-for-byte equal to the expected
HTML; any inequality yields a failure whose message contains
"did not return the expected HTML result"; and a user function returning
the fixed wrong string `"<p>bad HTML</p>"` makes `SpecCheck` (default
concurrency) return such an error whenever some fixture expects different
HTML. -/
theorem C5_mismatch_detection {α : Type} (specFiles : FixtureStore α)
    (dec : α → Except String (List TestCase)) (specVersion : String) (g : Nat)
    (testCases : List TestCase)
    (hsetup : specCheckSetup specFiles dec specVersion = .ok testCases) :
    (∀ (tc : TestCase) (fn : MdFunc), (fn tc.Markdown).2 = none →
        (runSingleTest tc fn = none ↔ (fn tc.Markdown).1 = tc.HTML)) ∧
    (∀ (tc : TestCase) (fn : MdFunc), (fn tc.Markdown).2 = none →
        tc.HTML ≠ (fn tc.Markdown).1 →
        ∃ msg, runSingleTest tc fn = some msg ∧
          containsSubstr msg "did not return the expected HTML result") ∧
    ((∃ tc ∈ testCases, tc.HTML ≠ "<p>bad HTML</p>") →
        ∀ r, SpecCheckRel specFiles dec specVersion badHTMLFunc g r →
          ∃ msg, r = some msg ∧
            containsSubstr msg "did not return the expected HTML result") := by
  refine ⟨fun tc fn h => runSingleTest_pass_iff tc fn h,
    fun tc fn h hne => runSingleTest_mismatch tc fn h hne, ?_⟩
  intro hex r hr
  obtain ⟨t, ord, hrun, hres⟩ := specCheckResult_of_ok_conc hsetup
    (by decide) hr
  obtain ⟨_, hmem, _⟩ := completeRun_perm hrun
  have hall : ∀ tc ∈ testCases, ∀ m, runSingleTest tc badHTMLFunc = some m →
      containsSubstr m "did not return the expected HTML result" := by
    intro tc _ m hm
    by_cases hhtml : tc.HTML = "<p>bad HTML</p>"
    · have hpass : runSingleTest tc badHTMLFunc = none :=
        (runSingleTest_pass_iff tc badHTMLFunc rfl).mpr hhtml.symm
      rw [hpass] at hm
      exact Option.noConfusion hm
    · obtain ⟨msg, heq, hP⟩ := runSingleTest_mismatch tc badHTMLFunc rfl hhtml
      have : some m = some msg := hm.symm.trans heq
      injection this with hmm
      rw [hmm]
      exact hP
  have hex' : ∃ tc ∈ testCases, (runSingleTest tc badHTMLFunc).isSome = true := by
    obtain ⟨tc, htc, hhtml⟩ := hex
    obtain ⟨msg, heq, _⟩ := runSingleTest_mismatch tc badHTMLFunc rfl hhtml
    exact ⟨tc, htc, by rw [heq]; rfl⟩
  obtain ⟨m, hconc, hP, _⟩ := concResult_first_fail testCases badHTMLFunc ord _
    hmem hall hex'
  refine ⟨"failed to run tests concurrently: " ++ m, by rw [hres, hconc], ?_⟩
  exact containsSubstr_append_left _ _ _ hP

/-- C5 witness: the fixed wrong string against the first sample case. -/
theorem C5_mismatch_detection_witness :
    ∃ msg, runSingleTest caseOne badHTMLFunc = some msg ∧
      containsSubstr msg "did not return the expected HTML result" :=
  (C5_mismatch_detection sampleStore Except.ok "v1" 1 [caseOne, caseTwo]
    (by rfl)).2.1 caseOne badHTMLFunc rfl (by decide)

/-- C6: when the user function fails on a test case, the runner fails with a
message containing "failed to parse markdown", the test identifier
`<exampleNumber>_<section>`, and the underlying error text; an
always-failing user function makes `SpecCheck` (default concurrency) return
such a wrapped failure, carrying some fixture's underlying error text,
rather than continuing or retrying. -/
theorem C6_function_error_propagation {α : Type} (specFiles : FixtureStore α)
    (dec : α → Except String (List TestCase)) (specVersion : String) (g : Nat)
    (testCases : List TestCase)
    (hsetup : specCheckSetup specFiles dec specVersion = .ok testCases) :
    (∀ (tc : TestCase) (fn : MdFunc) (e : String), (fn tc.Markdown).2 = some e →
        ∃ msg, runSingleTest tc fn = some msg ∧
          containsSubstr msg "failed to parse markdown" ∧
          containsSubstr msg (toString tc.ExampleNum ++ "_" ++ tc.Section) ∧
          containsSubstr msg e) ∧
    (∀ fn : MdFunc, (∀ md, ((fn md).2).isSome = true) → testCases ≠ [] →
        ∀ r, SpecCheckRel specFiles dec specVersion fn g r →
          ∃ msg, r = some msg ∧
            containsSubstr msg "failed to parse markdown" ∧
            ∃ tc ∈ testCases, ∃ e, (fn tc.Markdown).2 = some e ∧
              containsSubstr msg e) := by
  refine ⟨fun tc fn e h => runSingleTest_funcError tc fn e h, ?_⟩
  intro fn hfail hne r hr
  obtain ⟨t, ord, hrun, hres⟩ := specCheckResult_of_ok_conc hsetup
    (by decide) hr
  obtain ⟨_, hmem, _⟩ := completeRun_perm hrun
  have hall : ∀ tc ∈ testCases, ∀ m, runSingleTest tc fn = some m →
      containsSubstr m "failed to parse markdown" ∧
        ∃ tc' ∈ testCases, ∃ e, (fn tc'.Markdown).2 = some e ∧
          containsSubstr m e := by
    intro tc htc m hm
    obtain ⟨e, he⟩ := Option.isSome_iff_exists.mp (hfail tc.Markdown)
    obtain ⟨msg, heq, hP1, _, hP3⟩ := runSingleTest_funcError tc fn e he
    have : some m = some msg := hm.symm.trans heq
    injection this with hmm
    subst hmm
    exact ⟨hP1, tc, htc, e, he, hP3⟩
  have hex : ∃ tc ∈ testCases, (runSingleTest tc fn).isSome = true := by
    cases testCases with
    | nil => exact absurd rfl hne
    | cons tc rest =>
        obtain ⟨e, he⟩ := Option.isSome_iff_exists.mp (hfail tc.Markdown)
        obtain ⟨msg, heq, _⟩ := runSingleTest_funcError tc fn e he
        exact ⟨tc, by simp, by rw [heq]; rfl⟩
  obtain ⟨m, hconc, hP, _⟩ := concResult_first_fail testCases fn ord _
    hmem hall hex
  obtain ⟨hP1, tc, htc, e, he, hPe⟩ := hP
  refine ⟨"failed to run tests concurrently: " ++ m, by rw [hres, hconc],
    containsSubstr_append_left _ _ _ hP1, tc, htc, e, he,
    containsSubstr_append_left _ _ _ hPe⟩

/-- C6 witness: an always-failing function on the first sample case. -/
theorem C6_function_error_propagation_witness :
    ∃ msg, runSingleTest caseOne alwaysFailFunc = some msg ∧
      containsSubstr msg "failed to parse markdown" ∧
      containsSubstr msg (toString caseOne.ExampleNum ++ "_" ++ caseOne.Section) ∧
      containsSubstr msg "intentional error" :=
  (C6_function_error_propagation sampleStore Except.ok "v1" 1
    [caseOne, caseTwo] (by rfl)).1 caseOne alwaysFailFunc "intentional error" rfl
